import Mathlib

/-!
Verification of the text-processing logic of the biomed-parsers-intro scripts
(`scispacy.py` and `stanza_bio.py`): the newline-collapsing text normalizer,
the overlapping-span filter used by the chunk matcher, the token and
dependency report loops, the SVG diagram export block, and the error
propagation behaviour of the unguarded operations.
-/

/-- ASCII whitespace characters recognized by Python's `str.strip` with no
argument (space, tab, newline, carriage return, vertical tab, form feed).
The scripts only ever strip ASCII text. -/
def isPySpace (c : Char) : Bool :=
  c = ' ' || c = '\t' || c = '\n' || c = '\r' || c = '\x0b' || c = '\x0c'

/-- Character-list core of `re.sub(r'\n+', ' ', text)` at line 63 of
`scispacy.py` and line 69 of `stanza_bio.py`: each maximal run of one or more
newline characters is replaced by a single space.  The boolean flag records
whether the previous character belonged to a newline run (in which case
further newlines of the same run emit nothing). -/
def collapseAux : Bool → List Char → List Char
  | _, [] => []
  | inRun, c :: cs =>
    if c = '\n' then
      if inRun then collapseAux true cs
      else ' ' :: collapseAux true cs
    else c :: collapseAux false cs

/-- `re.sub(r'\n+', ' ', text)` on the underlying character list. -/
def collapseNewlines (l : List Char) : List Char :=
  collapseAux false l

/-- Python `str.lstrip()` on a character list. -/
def lstrip (l : List Char) : List Char :=
  l.dropWhile isPySpace

/-- Python `str.rstrip()` on a character list. -/
def rstrip (l : List Char) : List Char :=
  (l.reverse.dropWhile isPySpace).reverse

/-- Python `str.strip()` on a character list: drop whitespace from both
ends. -/
def pyStrip (l : List Char) : List Char :=
  rstrip (lstrip l)

/-- The text normalizer of both scripts:
`text = re.sub(r'\n+', ' ', text).strip()`. -/
def normalizeText (s : String) : String :=
  String.mk (pyStrip (collapseNewlines s.data))

/-- Number of maximal runs of consecutive newline characters in a character
list; the flag records whether the previous character was a newline (used to
state the length accounting of claim C7). -/
def countNewlineRuns : Bool → List Char → Nat
  | _, [] => 0
  | inRun, c :: cs =>
    if c = '\n' then
      if inRun then countNewlineRuns true cs
      else 1 + countNewlineRuns true cs
    else countNewlineRuns false cs

/-- The sample paragraph literal assigned to `text` at lines 41-55 of
`scispacy.py` (identical at lines 47-61 of `stanza_bio.py`): a leading
newline, thirteen lines of text, each line terminated by a newline. -/
def sampleText : String :=
"
Characterization of a mosquitocidal Bacillus thuringiensis serovar sotto strain
isolated from Okinawa, Japan. To characterize the mosquitocidal activity of
parasporal inclusions of the Bacillus thuringiensis serovar sotto strain
96-OK-85-24, for comparison with two well-characterized mosquitocidal strains.
The strain 96-OK-85-24 significantly differed from the existing mosquitocidal
B. thuringiensis strains in: (1) lacking the larvicidal activity against Culex
pipiens molestus and haemolytic activity, and (2) SDS-PAGE profiles,
immunological properties and N-terminal amino acid sequences of parasporal
inclusion proteins. It is clear from the results that the strain 96-OK-85-24
synthesizes a novel mosquitocidal Cry protein with a unique toxicity spectrum.
This is the first report of the occurrence of a mosquitocidal B. thuringiensis
strain with an unusual toxicity spectrum, lacking the activity against the
culicine mosquito.
"

theorem collapseAux_false_newline (cs : List Char) :
    collapseAux false ('\n' :: cs) = ' ' :: collapseAux true cs := rfl

theorem collapseAux_true_newline (cs : List Char) :
    collapseAux true ('\n' :: cs) = collapseAux true cs := rfl

theorem collapseAux_cons_ne (b : Bool) (c : Char) (cs : List Char)
    (hc : ¬ c = '\n') : collapseAux b (c :: cs) = c :: collapseAux false cs := by
  cases b <;> simp [collapseAux, hc]

theorem collapseAux_append_of_not_newline (a : List Char) (r : List Char)
    (ha : '\n' ∉ a) : collapseAux false (a ++ r) = a ++ collapseAux false r := by
  induction a with
  | nil => rfl
  | cons c cs ih =>
    have hc : ¬ c = '\n' := fun h => ha (h ▸ List.mem_cons_self c cs)
    rw [List.cons_append, collapseAux_cons_ne false c _ hc,
      ih fun h => ha (List.mem_cons_of_mem c h), List.cons_append]

theorem collapseAux_true_replicate (k : Nat) (b : List Char) :
    collapseAux true (List.replicate k '\n' ++ b) = collapseAux true b := by
  induction k with
  | zero => rfl
  | succ n ih =>
    rw [List.replicate_succ, List.cons_append, collapseAux_true_newline, ih]

theorem collapseAux_true_eq_false (b : List Char)
    (hb : b.head? ≠ some '\n') : collapseAux true b = collapseAux false b := by
  cases b with
  | nil => rfl
  | cons c cs =>
    have hc : ¬ c = '\n' := by
      intro h; exact hb (by simp [h])
    rw [collapseAux_cons_ne true c cs hc, collapseAux_cons_ne false c cs hc]

theorem newline_not_mem_collapseAux (b : Bool) (l : List Char) :
    '\n' ∉ collapseAux b l := by
  induction l generalizing b with
  | nil => simp [collapseAux]
  | cons c cs ih =>
    by_cases hc : c = '\n'
    · subst hc
      cases b with
      | true => rw [collapseAux_true_newline]; exact ih true
      | false =>
        rw [collapseAux_false_newline]
        intro hmem
        rcases List.mem_cons.mp hmem with h | h
        · exact absurd h (by decide)
        · exact ih true h
    · rw [collapseAux_cons_ne b c cs hc]
      intro hmem
      rcases List.mem_cons.mp hmem with h | h
      · exact hc h.symm
      · exact ih false h

theorem collapseAux_of_no_newline (b : Bool) (l : List Char)
    (hl : '\n' ∉ l) : collapseAux b l = l := by
  induction l generalizing b with
  | nil => rfl
  | cons c cs ih =>
    have hc : ¬ c = '\n' := fun h => hl (h ▸ List.mem_cons_self c cs)
    rw [collapseAux_cons_ne b c cs hc,
      ih false fun h => hl (List.mem_cons_of_mem c h)]

theorem dropWhile_idem (p : α → Bool) (l : List α) :
    (l.dropWhile p).dropWhile p = l.dropWhile p := by
  induction l with
  | nil => rfl
  | cons a as ih =>
    by_cases hp : p a
    · simpa [List.dropWhile_cons, hp] using ih
    · simp [List.dropWhile_cons, hp]

theorem mem_of_mem_dropWhile {p : α → Bool} {l : List α} {x : α}
    (h : x ∈ l.dropWhile p) : x ∈ l :=
  (List.dropWhile_sublist p).mem h

theorem mem_of_mem_pyStrip {l : List Char} {x : Char}
    (h : x ∈ pyStrip l) : x ∈ l := by
  unfold pyStrip rstrip lstrip at h
  rw [List.mem_reverse] at h
  have h2 := mem_of_mem_dropWhile h
  rw [List.mem_reverse] at h2
  exact mem_of_mem_dropWhile h2

theorem head_false_of_dropWhile_self {p : α → Bool} {l : List α}
    (h : l.dropWhile p = l) {c : α} {cs : List α} (hl : l = c :: cs) :
    p c = false := by
  subst hl
  by_cases hp : p c
  · rw [List.dropWhile_cons, if_pos hp] at h
    have hlen : (cs.dropWhile p).length ≤ cs.length :=
      (List.dropWhile_sublist p).length_le
    rw [h] at hlen
    simp at hlen
  · simpa using hp

theorem dropWhile_append_cases (p : α → Bool) (xs ys : List α) :
    (xs ++ ys).dropWhile p = xs.dropWhile p ++ ys ∨
      (xs.dropWhile p = [] ∧ (xs ++ ys).dropWhile p = ys.dropWhile p) := by
  induction xs with
  | nil => right; exact ⟨rfl, rfl⟩
  | cons a as ih =>
    by_cases hp : p a
    · rcases ih with h | ⟨h1, h2⟩
      · left; simpa [List.dropWhile_cons, hp] using h
      · right; constructor
        · simpa [List.dropWhile_cons, hp] using h1
        · simpa [List.dropWhile_cons, hp] using h2
    · left; simp [List.dropWhile_cons, hp]

theorem lstrip_rstrip_of_lstrip_self {l : List Char}
    (h : lstrip l = l) : lstrip (rstrip l) = rstrip l := by
  cases hl : l with
  | nil => simp [rstrip, lstrip, hl]
  | cons c cs =>
    have hc : isPySpace c = false := head_false_of_dropWhile_self h hl
    have hrev : (c :: cs).reverse = cs.reverse ++ [c] := by simp
    rcases dropWhile_append_cases isPySpace cs.reverse [c] with hcase | ⟨h1, hcase⟩
    · unfold rstrip
      rw [hrev, hcase, List.reverse_append]
      show lstrip ([c] ++ (List.dropWhile isPySpace cs.reverse).reverse) = _
      unfold lstrip
      rw [List.singleton_append, List.dropWhile_cons, hc]
      simp
    · unfold rstrip
      rw [hrev, hcase]
      show lstrip ((List.dropWhile isPySpace [c]).reverse) = _
      rw [List.dropWhile_cons, hc]
      show lstrip [c] = _
      unfold lstrip
      rw [List.dropWhile_cons, hc]
      simp

theorem rstrip_idem (l : List Char) : rstrip (rstrip l) = rstrip l := by
  unfold rstrip
  rw [List.reverse_reverse, dropWhile_idem]

theorem pyStrip_idem (l : List Char) : pyStrip (pyStrip l) = pyStrip l := by
  unfold pyStrip
  have h1 : lstrip (lstrip l) = lstrip l := dropWhile_idem isPySpace l
  rw [lstrip_rstrip_of_lstrip_self h1, rstrip_idem]

theorem newline_not_mem_normalizeText (s : String) :
    '\n' ∉ (normalizeText s).data := by
  intro h
  simp only [normalizeText] at h
  exact newline_not_mem_collapseAux false s.data (mem_of_mem_pyStrip h)

/-- C1: the text normalizer replaces each maximal run of one or more newline
characters (a run preceded by newline-free text and followed by text not
starting with a newline) with exactly one space, leaving all other characters
unchanged, and then strips leading/trailing whitespace; in particular
normalizing the string consisting of a, two newlines, b, one newline, c and a
trailing space yields a-space-b-space-c exactly. -/
theorem C1_normalizer_collapses_runs_and_strips (a b : List Char) (k : Nat)
    (ha : '\n' ∉ a) (hb : b.head? ≠ some '\n') :
    collapseNewlines (a ++ List.replicate (k + 1) '\n' ++ b)
        = a ++ ' ' :: collapseNewlines b
      ∧ normalizeText "a\n\nb\nc " = "a b c" := by
  constructor
  · unfold collapseNewlines
    rw [List.append_assoc, collapseAux_append_of_not_newline a _ ha,
      List.replicate_succ, List.cons_append, collapseAux_false_newline,
      collapseAux_true_replicate k b, collapseAux_true_eq_false b hb]
  · decide

/-- Witness for C1 at a concrete input: a = "a", k = 1 (a run of two
newlines), b = "b". -/
theorem C1_normalizer_collapses_runs_and_strips_witness :
    collapseNewlines (['a'] ++ List.replicate 2 '\n' ++ ['b'])
        = ['a'] ++ ' ' :: collapseNewlines ['b']
      ∧ normalizeText "a\n\nb\nc " = "a b c" :=
  C1_normalizer_collapses_runs_and_strips ['a'] ['b'] 1 (by decide) (by decide)

/-- C6: the text normalizer is idempotent: normalizing an already-normalized
string returns it unchanged. -/
theorem C6_normalizeText_idempotent (s : String) :
    normalizeText (normalizeText s) = normalizeText s := by
  have hnl : '\n' ∉ (normalizeText s).data := newline_not_mem_normalizeText s
  show String.mk (pyStrip (collapseNewlines (normalizeText s).data))
      = normalizeText s
  rw [show collapseNewlines (normalizeText s).data = (normalizeText s).data from
    collapseAux_of_no_newline false _ hnl]
  show String.mk (pyStrip (pyStrip (collapseNewlines s.data))) = normalizeText s
  rw [pyStrip_idem]
  rfl

theorem count_cr_collapseAux (b : Bool) (l : List Char) :
    (collapseAux b l).count '\r' = l.count '\r' := by
  induction l generalizing b with
  | nil => rfl
  | cons c cs ih =>
    by_cases hc : c = '\n'
    · subst hc
      cases b with
      | true =>
        rw [collapseAux_true_newline, ih true]
        simp [List.count_cons]
      | false =>
        rw [collapseAux_false_newline]
        simp [List.count_cons, ih true]
    · rw [collapseAux_cons_ne b c cs hc]
      simp [List.count_cons, ih false]

theorem all_space_collapseAux (b : Bool) (l : List Char)
    (h : ∀ c ∈ l, isPySpace c = true) :
    ∀ c ∈ collapseAux b l, isPySpace c = true := by
  induction l generalizing b with
  | nil => simp [collapseAux]
  | cons c cs ih =>
    have hcs : ∀ x ∈ cs, isPySpace x = true :=
      fun x hx => h x (List.mem_cons_of_mem c hx)
    by_cases hc : c = '\n'
    · subst hc
      cases b with
      | true => rw [collapseAux_true_newline]; exact ih true hcs
      | false =>
        rw [collapseAux_false_newline]
        intro x hx
        rcases List.mem_cons.mp hx with h1 | h1
        · subst h1; decide
        · exact ih true hcs x h1
    · rw [collapseAux_cons_ne b c cs hc]
      intro x hx
      rcases List.mem_cons.mp hx with h1 | h1
      · exact h1 ▸ h c (List.mem_cons_self c cs)
      · exact ih false hcs x h1

/-- C9: the normalizer treats only the line feed character as a newline: the
substitution pass preserves every carriage return (their count is unchanged),
and the input a-CR-LF-b normalizes to a-CR-space-b, the carriage return
surviving in the interior followed by the substituted space. -/
theorem C9_carriage_return_survives :
    (∀ l : List Char, (collapseNewlines l).count '\r' = l.count '\r')
      ∧ normalizeText "a\r\nb" = "a\r b" := by
  constructor
  · exact fun l => count_cr_collapseAux false l
  · decide

/-- C10: every input consisting solely of whitespace characters, including the
empty string, normalizes to the empty string. -/
theorem C10_all_whitespace_to_empty (s : String)
    (h : ∀ c ∈ s.data, isPySpace c = true) : normalizeText s = "" := by
  have hall : ∀ c ∈ collapseNewlines s.data, isPySpace c = true :=
    all_space_collapseAux false s.data h
  have hl : lstrip (collapseNewlines s.data) = [] :=
    List.dropWhile_eq_nil_iff.mpr hall
  show String.mk (rstrip (lstrip (collapseNewlines s.data))) = ""
  rw [hl]
  rfl

/-- Witness for C10 at the concrete all-whitespace input consisting of a
space, a tab, two newlines and a space (the empty string is covered by the
theorem as well). -/
theorem C10_all_whitespace_to_empty_witness : normalizeText " \t\n\n " = "" :=
  C10_all_whitespace_to_empty " \t\n\n " (by decide)

set_option maxRecDepth 20000 in
/-- C7 counterexample: the sample paragraph has 939 characters and 14 newline
runs (each a single newline); the normalized output has 937 = 939 - 2
characters, not 939 - 14 = 925 as the one-character-per-newline-run length
accounting of the claim demands. -/
theorem C7_counterexample :
    sampleText.length = 939
      ∧ countNewlineRuns false sampleText.data = 14
      ∧ (normalizeText sampleText).length = 937
      ∧ (normalizeText sampleText).length ≠
          sampleText.length - countNewlineRuns false sampleText.data := by
  have h1 : sampleText.length = 939 := rfl
  have h2 : countNewlineRuns false sampleText.data = 14 := rfl
  have h3 : (normalizeText sampleText).length = 937 := rfl
  exact ⟨h1, h2, h3, by rw [h1, h2, h3]; decide⟩

set_option maxRecDepth 20000 in
/-- C7 (amended): normalizing the sample paragraph strips all embedded
newlines and yields a newline-free string; since every newline run of the
sample is a single newline, the run substitution preserves the length and the
trailing strip removes exactly the leading and trailing space, so the output
length is the original length minus two (939 to 937), not minus one per
newline run. -/
theorem C7_sample_normalization_length :
    '\n' ∉ (normalizeText sampleText).data
      ∧ (normalizeText sampleText).length = sampleText.length - 2 :=
  ⟨newline_not_mem_normalizeText sampleText, rfl⟩

/-- A candidate token span over document token indices, half-open
[start, stop), as produced by the spaCy Matcher inside
`get_matched_pos_chunks` (scispacy.py lines 239-247). -/
structure TokSpan where
  start : Nat
  stop : Nat
  deriving DecidableEq

/-- Length of a span in tokens. -/
def spanLen (s : TokSpan) : Nat := s.stop - s.start

/-- Whether two half-open spans overlap, i.e. share at least one token. -/
def spanOverlaps (s t : TokSpan) : Bool :=
  decide (s.start < t.stop) && decide (t.start < s.stop)

/-- Insert a span into a list sorted by start offset. -/
def insertByStart (s : TokSpan) : List TokSpan → List TokSpan
  | [] => [s]
  | t :: ts => if s.start ≤ t.start then s :: t :: ts else t :: insertByStart s ts

/-- Sort spans into document order (by start offset). -/
def sortByStart (l : List TokSpan) : List TokSpan :=
  l.foldr insertByStart []

/-- Modelled from the spec: the span filter applied by
`get_matched_pos_chunks` (scispacy.py line 248) is `spacy.util.filter_spans`,
library code whose source is not part of this repository.  Per the spec,
"when multiple candidate spans overlap, keep only the maximal (longest) span
per overlapping cluster; discard any span fully or partially covered by a
longer one", with the surviving spans returned in document order; the spec
declares the tie-break among equal-length overlapping spans unspecified, and
this model keeps them. -/
def filter_spans (spans : List TokSpan) : List TokSpan :=
  sortByStart (spans.filter fun s =>
    !(spans.any fun t => decide (spanLen s < spanLen t) && spanOverlaps s t))

theorem mem_insertByStart {x s : TokSpan} {l : List TokSpan} :
    x ∈ insertByStart s l ↔ x = s ∨ x ∈ l := by
  induction l with
  | nil => simp [insertByStart]
  | cons t ts ih =>
    by_cases h : s.start ≤ t.start
    · simp only [insertByStart, if_pos h, List.mem_cons]
    · simp only [insertByStart, if_neg h, List.mem_cons, ih]
      tauto

theorem mem_sortByStart {x : TokSpan} {l : List TokSpan} :
    x ∈ sortByStart l ↔ x ∈ l := by
  induction l with
  | nil => simp [sortByStart]
  | cons t ts ih =>
    show x ∈ insertByStart t (sortByStart ts) ↔ x ∈ t :: ts
    rw [mem_insertByStart, ih, List.mem_cons]

theorem pairwise_insertByStart {s : TokSpan} {l : List TokSpan}
    (h : l.Pairwise fun a b => a.start ≤ b.start) :
    (insertByStart s l).Pairwise fun a b => a.start ≤ b.start := by
  induction l with
  | nil => simp [insertByStart]
  | cons t ts ih =>
    rcases List.pairwise_cons.mp h with ⟨ht, hts⟩
    by_cases hst : s.start ≤ t.start
    · simp only [insertByStart, if_pos hst]
      refine List.pairwise_cons.mpr ⟨?_, h⟩
      intro y hy
      rcases List.mem_cons.mp hy with rfl | hy
      · exact hst
      · exact le_trans hst (ht y hy)
    · simp only [insertByStart, if_neg hst]
      refine List.pairwise_cons.mpr ⟨?_, ih hts⟩
      intro y hy
      rcases mem_insertByStart.mp hy with rfl | hy
      · exact Nat.le_of_lt (Nat.lt_of_not_le hst)
      · exact ht y hy

theorem pairwise_sortByStart (l : List TokSpan) :
    (sortByStart l).Pairwise fun a b => a.start ≤ b.start := by
  induction l with
  | nil => simp [sortByStart]
  | cons t ts ih => exact pairwise_insertByStart ih

theorem spanOverlaps_comm (s t : TokSpan) :
    spanOverlaps s t = spanOverlaps t s := by
  simp [spanOverlaps, Bool.and_comm]

/-- C2: the span filter keeps, per cluster of overlapping candidate spans,
only the longest span: from the overlapping spans [0,4), [1,4), [2,4), [3,4)
only [0,4) survives; the two disjoint spans [0,2) and [3,5) both survive; in
general every span of a pairwise-disjoint candidate list survives, and the
surviving spans are returned in document order (sorted by start offset). -/
theorem C2_filter_spans_keeps_longest (spans : List TokSpan)
    (h : spans.Pairwise fun a b => spanOverlaps a b = false) :
    filter_spans [⟨0, 4⟩, ⟨1, 4⟩, ⟨2, 4⟩, ⟨3, 4⟩] = [⟨0, 4⟩]
      ∧ filter_spans [⟨0, 2⟩, ⟨3, 5⟩] = [⟨0, 2⟩, ⟨3, 5⟩]
      ∧ (∀ s ∈ spans, s ∈ filter_spans spans)
      ∧ (filter_spans spans).Pairwise fun a b => a.start ≤ b.start := by
  have hsym : Symmetric fun a b : TokSpan => spanOverlaps a b = false := by
    intro a b hab
    rw [spanOverlaps_comm]
    exact hab
  refine ⟨by decide, by decide, ?_, pairwise_sortByStart _⟩
  intro s hs
  unfold filter_spans
  rw [mem_sortByStart, List.mem_filter]
  refine ⟨hs, ?_⟩
  rw [Bool.not_eq_true', List.any_eq_false]
  intro t ht
  by_cases hst : s = t
  · subst hst
    simp
  · have hov : spanOverlaps s t = false :=
      List.Pairwise.forall hsym h hs ht hst
    simp [hov]

/-- Witness for C2 at the concrete pair of disjoint spans [0,2) and [3,5). -/
theorem C2_filter_spans_keeps_longest_witness :
    filter_spans [⟨0, 4⟩, ⟨1, 4⟩, ⟨2, 4⟩, ⟨3, 4⟩] = [⟨0, 4⟩]
      ∧ filter_spans [⟨0, 2⟩, ⟨3, 5⟩] = [⟨0, 2⟩, ⟨3, 5⟩]
      ∧ (∀ s ∈ ([⟨0, 2⟩, ⟨3, 5⟩] : List TokSpan),
          s ∈ filter_spans [⟨0, 2⟩, ⟨3, 5⟩])
      ∧ (filter_spans [(⟨0, 2⟩ : TokSpan), ⟨3, 5⟩]).Pairwise
          fun a b => a.start ≤ b.start :=
  C2_filter_spans_keeps_longest [⟨0, 2⟩, ⟨3, 5⟩] (by decide)

/-- A spaCy token as consumed by the report loops of scispacy.py: surface
text, lemma, coarse and fine part-of-speech tags, stopword flag, dependency
relation label, and the document index of its head token (token.head.i). -/
structure SpacyTok where
  text : String
  lemma_ : String
  pos_ : String
  tag_ : String
  is_stop : Bool
  dep_ : String
  headIdx : Nat
  deriving DecidableEq

/-- Placeholder token used for out-of-range lookups. -/
def dummyTok : SpacyTok := ⟨"", "", "", "", false, "", 0⟩

/-- The head-text rendering of the dependency report loop (scispacy.py line
95): the literal ROOT when the token is its own head, otherwise the head
token's surface text. -/
def depHeadText (doc : List SpacyTok) (i : Nat) : String :=
  if (doc.getD i dummyTok).headIdx = i then "ROOT"
  else (doc.getD (doc.getD i dummyTok).headIdx dummyTok).text

/-- A row of the spaCy token report (scispacy.py lines 78-83): 1-based
position, surface text, lemma, coarse tag, fine tag, stopword flag. -/
structure TokRow where
  pos : Nat
  text : String
  lemma_ : String
  upos : String
  tag : String
  is_stop : Bool
  deriving DecidableEq

/-- The spaCy token report loop (scispacy.py lines 78-83): row i carries the
1-based position i+1 and the token attributes, in input token order. -/
def tokenReport (doc : List SpacyTok) : List TokRow :=
  doc.enum.map fun p =>
    ⟨p.1 + 1, p.2.text, p.2.lemma_, p.2.pos_, p.2.tag_, p.2.is_stop⟩

/-- A stanza word as printed by the per-sentence report (stanza_bio.py lines
104-110): sentence-relative id, text, lemma, coarse and fine tags. -/
structure StanzaWord where
  id : Nat
  text : String
  lemma_ : String
  upos : String
  xpos : String
  deriving DecidableEq

/-- A row of the stanza word report (stanza_bio.py lines 107-109): printed
position (the word id), text, lemma, coarse tag, fine tag. -/
structure StanzaRow where
  pos : Nat
  text : String
  lemma_ : String
  upos : String
  xpos : String
  deriving DecidableEq

/-- The stanza per-sentence word report (stanza_bio.py lines 104-110): one
row per word of each sentence, printed in sentence order. -/
def stanzaWordReport (sents : List (List StanzaWord)) : List StanzaRow :=
  sents.flatMap fun ws => ws.map fun w => ⟨w.id, w.text, w.lemma_, w.upos, w.xpos⟩

/-- The ids of a sentence's words, in order. -/
def sentIds (ws : List StanzaWord) : List Nat :=
  ws.map StanzaWord.id

/-- The stanza id contract documented at lines 85-89 of stanza_bio.py: word
ids are relative to the sentence they belong to, numbering its words from 1
to its length. -/
def wellFormedSent (ws : List StanzaWord) : Prop :=
  sentIds ws = List.range' 1 ws.length

instance (ws : List StanzaWord) : Decidable (wellFormedSent ws) :=
  inferInstanceAs (Decidable (sentIds ws = List.range' 1 ws.length))

/-- A document whose first token has surface text ROOT and heads token 1
(used to refute claim C3 as stated). -/
def rootTextDoc : List SpacyTok :=
  [⟨"ROOT", "", "", "", false, "", 0⟩, ⟨"b", "", "", "", false, "", 0⟩]

/-- A two-token document with ordinary surface texts. -/
def plainDoc : List SpacyTok :=
  [⟨"a", "", "", "", false, "", 0⟩, ⟨"b", "", "", "", false, "", 0⟩]

/-- A one-token document. -/
def oneTokDoc : List SpacyTok :=
  [⟨"a", "", "", "", false, "", 0⟩]

/-- A stanza document of two well-formed sentences, of two words and one
word (used to refute claim C4 as stated). -/
def twoSentDoc : List (List StanzaWord) :=
  [[⟨1, "a", "a", "X", "X"⟩, ⟨2, "b", "b", "X", "X"⟩], [⟨1, "c", "c", "X", "X"⟩]]

/-- C3 counterexample: in the document whose first token has surface text
ROOT and heads token 1, the rendered head text of token 1 is the literal ROOT
although its head position 0 differs from its own position 1, so head
position equals own position is not necessary for the rendered text to be
ROOT, refuting the if-and-only-if as claimed. -/
theorem C3_counterexample :
    (rootTextDoc.getD 1 dummyTok).headIdx ≠ 1
      ∧ depHeadText rootTextDoc 1 = "ROOT" := by decide

/-- C3 (amended): the rendered head text is ROOT when the head position
equals the token's own position; the converse also holds provided no token of
the document has surface text ROOT; and when the head is a different token
the rendered head text is that head token's surface text. -/
theorem C3_head_root_iff (doc : List SpacyTok) (i : Nat)
    (hroot : ∀ t ∈ doc, t.text ≠ "ROOT") :
    ((doc.getD i dummyTok).headIdx = i ↔ depHeadText doc i = "ROOT")
      ∧ ((doc.getD i dummyTok).headIdx ≠ i →
          depHeadText doc i
            = (doc.getD (doc.getD i dummyTok).headIdx dummyTok).text) := by
  by_cases h : (doc.getD i dummyTok).headIdx = i
  · refine ⟨⟨fun _ => ?_, fun _ => h⟩, fun hne => absurd h hne⟩
    unfold depHeadText
    rw [if_pos h]
  · have hhead : depHeadText doc i
        = (doc.getD (doc.getD i dummyTok).headIdx dummyTok).text := by
      unfold depHeadText
      rw [if_neg h]
    refine ⟨⟨fun hh => absurd hh h, fun hr => ?_⟩, fun _ => hhead⟩
    exfalso
    rw [hhead] at hr
    by_cases hlt : (doc.getD i dummyTok).headIdx < doc.length
    · have hmem : doc.getD (doc.getD i dummyTok).headIdx dummyTok ∈ doc := by
        rw [List.getD_eq_getElem doc dummyTok hlt]
        exact List.getElem_mem hlt
      exact hroot _ hmem hr
    · rw [List.getD_eq_default doc dummyTok (Nat.le_of_not_lt hlt)] at hr
      exact absurd hr (by decide)

/-- Witness for C3 (amended) on a concrete two-token document none of whose
tokens is named ROOT, at token position 1. -/
theorem C3_head_root_iff_witness :
    ((plainDoc.getD 1 dummyTok).headIdx = 1 ↔ depHeadText plainDoc 1 = "ROOT")
      ∧ ((plainDoc.getD 1 dummyTok).headIdx ≠ 1 →
          depHeadText plainDoc 1
            = (plainDoc.getD (plainDoc.getD 1 dummyTok).headIdx dummyTok).text) :=
  C3_head_root_iff plainDoc 1 (by decide)

/-- C4 counterexample: the stanza word report of a document of two
well-formed sentences (two words and one word) prints positions 1, 2, 1,
which is not strictly increasing across the whole printed report. -/
theorem C4_counterexample :
    (∀ ws ∈ twoSentDoc, wellFormedSent ws)
      ∧ (stanzaWordReport twoSentDoc).map StanzaRow.pos = [1, 2, 1]
      ∧ ¬ List.Chain' (· < ·) ((stanzaWordReport twoSentDoc).map StanzaRow.pos) := by
  have h2 : (stanzaWordReport twoSentDoc).map StanzaRow.pos = [1, 2, 1] := by
    decide
  refine ⟨by decide, h2, ?_⟩
  rw [h2]
  simp [List.chain'_cons]

/-- C4 (amended): the spaCy token report positions are the 1-based indices
1..n in input token order and strictly increase across the whole report; the
stanza report positions are sentence-relative: in each well-formed sentence
they restart at 1 and strictly increase within that sentence only. -/
theorem C4_report_positions (doc : List SpacyTok)
    (sents : List (List StanzaWord)) (h : ∀ ws ∈ sents, wellFormedSent ws) :
    (tokenReport doc).map TokRow.pos = (List.range doc.length).map (· + 1)
      ∧ List.Chain' (· < ·) ((tokenReport doc).map TokRow.pos)
      ∧ ∀ ws ∈ sents, List.Chain' (· < ·) (sentIds ws) := by
  have hpos : (tokenReport doc).map TokRow.pos
      = (List.range doc.length).map (· + 1) := by
    unfold tokenReport
    rw [List.map_map]
    rw [show (TokRow.pos ∘ fun p : Nat × SpacyTok =>
        (⟨p.1 + 1, p.2.text, p.2.lemma_, p.2.pos_, p.2.tag_, p.2.is_stop⟩
          : TokRow)) = (fun n => n + 1) ∘ Prod.fst from rfl]
    rw [← List.map_map, List.enum_map_fst]
  refine ⟨hpos, ?_, ?_⟩
  · rw [hpos]
    exact (List.Pairwise.map (fun n => n + 1)
      (fun a b hab => Nat.add_lt_add_right hab 1)
      (List.pairwise_lt_range doc.length)).chain'
  · intro ws hws
    have hid : sentIds ws = List.range' 1 ws.length := h ws hws
    rw [hid]
    exact (List.pairwise_lt_range' 1 ws.length).chain'

/-- Witness for C4 (amended) on a concrete one-token spaCy document and the
concrete two-sentence stanza document. -/
theorem C4_report_positions_witness :
    (tokenReport oneTokDoc).map TokRow.pos
        = (List.range oneTokDoc.length).map (· + 1)
      ∧ List.Chain' (· < ·) ((tokenReport oneTokDoc).map TokRow.pos)
      ∧ ∀ ws ∈ twoSentDoc, List.Chain' (· < ·) (sentIds ws) :=
  C4_report_positions oneTokDoc twoSentDoc (by decide)

/-- State of the spacy-deps output directory: whether the directory exists
and the paths of the files under it, in creation order. -/
structure DepsDir where
  dirExists : Bool
  files : List String
  deriving DecidableEq

/-- A directory state is well formed when a non-existent directory holds no
files. -/
def DepsDir.wf (d : DepsDir) : Prop :=
  d.dirExists = false → d.files = []

/-- Path of the vector image for the 0-based sentence index i:
spacy-deps/sentence-<i+1>.svg (scispacy.py line 106). -/
def svgPath (i : Nat) : String :=
  "spacy-deps/sentence-" ++ toString (i + 1) ++ ".svg"

/-- shutil.rmtree on the output directory (scispacy.py line 102): the
directory and all its contents are removed. -/
def rmtreeDeps (_ : DepsDir) : DepsDir :=
  ⟨false, []⟩

/-- os.mkdir (scispacy.py line 104): creates the empty directory, raising
FileExistsError when it already exists. -/
def mkdirDeps (d : DepsDir) : Except String DepsDir :=
  if d.dirExists then Except.error "FileExistsError"
  else Except.ok ⟨true, d.files⟩

/-- Writing one rendered svg file (scispacy.py lines 106-109). -/
def writeSvg (d : DepsDir) (p : String) : DepsDir :=
  ⟨d.dirExists, d.files ++ [p]⟩

/-- The diagram export block (scispacy.py lines 100-109): remove the output
directory if it exists, recreate it, then write one svg per sentence, in
sentence order. -/
def exportDeps (numSents : Nat) (d : DepsDir) : Except String DepsDir :=
  let d1 := if d.dirExists then rmtreeDeps d else d
  match mkdirDeps d1 with
  | Except.error e => Except.error e
  | Except.ok d2 =>
      Except.ok ((List.range numSents).foldl
        (fun acc i => writeSvg acc (svgPath i)) d2)

theorem foldl_writeSvg (l : List Nat) (d : DepsDir) :
    l.foldl (fun acc i => writeSvg acc (svgPath i)) d
      = ⟨d.dirExists, d.files ++ l.map svgPath⟩ := by
  induction l generalizing d with
  | nil => simp
  | cons i is ih =>
    rw [List.foldl_cons, ih]
    simp [writeSvg]

theorem exportDeps_ok (n : Nat) (d : DepsDir) (hwf : DepsDir.wf d) :
    exportDeps n d = Except.ok ⟨true, (List.range n).map svgPath⟩ := by
  obtain ⟨de, fs⟩ := d
  cases de with
  | true =>
    have h : exportDeps n ⟨true, fs⟩
        = Except.ok ((List.range n).foldl
            (fun acc i => writeSvg acc (svgPath i)) ⟨true, []⟩) := rfl
    rw [h, foldl_writeSvg]
    simp
  | false =>
    have hfs : fs = [] := hwf rfl
    subst hfs
    have h : exportDeps n ⟨false, []⟩
        = Except.ok ((List.range n).foldl
            (fun acc i => writeSvg acc (svgPath i)) ⟨true, []⟩) := rfl
    rw [h, foldl_writeSvg]
    simp

/-- C5: from any well-formed directory state, the diagram export block
deletes any pre-existing output directory, recreates it empty, and writes
exactly one vector-image file per sentence at
spacy-deps/sentence-<1-based-index>.svg, in sentence order; consequently
running the exporter twice leaves exactly the second run's files, with no
stale file from the first run remaining. -/
theorem C5_export_full_replace (n m : Nat) (d : DepsDir) (hwf : DepsDir.wf d) :
    exportDeps n d = Except.ok ⟨true, (List.range n).map svgPath⟩
      ∧ ∀ d', exportDeps m d = Except.ok d' →
          exportDeps n d' = Except.ok ⟨true, (List.range n).map svgPath⟩ := by
  refine ⟨exportDeps_ok n d hwf, ?_⟩
  intro d' hd'
  rw [exportDeps_ok m d hwf] at hd'
  have hd2 : d' = ⟨true, (List.range m).map svgPath⟩ := by
    injection hd' with h
    exact h.symm
  subst hd2
  exact exportDeps_ok n _ (fun h => nomatch h)

/-- Witness for C5: a pre-existing directory holding one stale file, one
sentence on the first run, two sentences on the second. -/
theorem C5_export_full_replace_witness :
    exportDeps 2 ⟨true, ["spacy-deps/stale.svg"]⟩
        = Except.ok ⟨true, (List.range 2).map svgPath⟩
      ∧ ∀ d', exportDeps 1 ⟨true, ["spacy-deps/stale.svg"]⟩ = Except.ok d' →
          exportDeps 2 d' = Except.ok ⟨true, (List.range 2).map svgPath⟩ :=
  C5_export_full_replace 2 1 ⟨true, ["spacy-deps/stale.svg"]⟩
    (fun h => nomatch h)

/-- Sequential execution of the unguarded effectful iterations of the export
loop (scispacy.py lines 105-109): each step either succeeds or raises, and a
raise aborts the remaining steps, since the loop body contains no
try/except. -/
def runSteps (step : Nat → Except String Unit) : List Nat → Except String Unit
  | [] => Except.ok ()
  | i :: is =>
    match step i with
    | Except.error e => Except.error e
    | Except.ok _ => runSteps step is

theorem runSteps_cons (step : Nat → Except String Unit) (i : Nat)
    (is : List Nat) :
    runSteps step (i :: is)
      = match step i with
        | Except.error e => Except.error e
        | Except.ok _ => runSteps step is := rfl

/-- A named-entity row: entity label and text. -/
structure NerEnt where
  label_ : String
  text : String

/-- The body of show_ner (scispacy.py lines 138-148) with the model load
explicit and fallible: nlp = spacy.load(ner_model); doc = nlp(text); then
the entity rows (label, text) are produced.  There is no exception handling:
a load failure is returned as is. -/
def show_ner (load : String → Except String (String → List NerEnt))
    (txt ner_model : String) : Except String (List (String × String)) :=
  match load ner_model with
  | Except.error e => Except.error e
  | Except.ok nlp => Except.ok (((nlp txt).map fun ent => (ent.label_, ent.text)))

theorem runSteps_append_error (step : Nat → Except String Unit)
    (l1 : List Nat) (i : Nat) (l2 : List Nat) (e : String)
    (h1 : ∀ j ∈ l1, step j = Except.ok ())
    (hi : step i = Except.error e) :
    runSteps step (l1 ++ i :: l2) = Except.error e := by
  induction l1 with
  | nil =>
    rw [List.nil_append, runSteps_cons, hi]
  | cons j js ih =>
    have hj : step j = Except.ok () := h1 j (List.mem_cons_self j js)
    rw [List.cons_append, runSteps_cons, hj]
    exact ih fun x hx => h1 x (List.mem_cons_of_mem j hx)

theorem runSteps_ok_iff (step : Nat → Except String Unit) (l : List Nat) :
    runSteps step l = Except.ok () ↔ ∀ i ∈ l, step i = Except.ok () := by
  induction l with
  | nil => simp [runSteps]
  | cons i is ih =>
    rw [runSteps_cons]
    cases hstep : step i with
    | error e =>
      constructor
      · intro h
        exact absurd h (fun hh => nomatch hh)
      · intro h
        have hthis := h i (List.mem_cons_self i is)
        rw [hstep] at hthis
        exact Except.noConfusion hthis
    | ok u =>
      cases u
      rw [ih]
      constructor
      · intro h j hj
        rcases List.mem_cons.mp hj with rfl | hj
        · exact hstep
        · exact h j hj
      · intro h j hj
        exact h j (List.mem_cons_of_mem i hj)

/-- C8: no operation catches or recovers from errors: the unguarded loop
succeeds exactly when every iteration succeeds; the first failing
iteration's error propagates unchanged to the caller, aborting the remaining
iterations with no retry; and a failing model load aborts show_ner with that
same error. -/
theorem C8_errors_propagate (step : Nat → Except String Unit)
    (l l1 l2 : List Nat) (i : Nat) (e em : String)
    (load : String → Except String (String → List NerEnt)) (txt m : String)
    (hsplit : l = l1 ++ i :: l2) (h1 : ∀ j ∈ l1, step j = Except.ok ())
    (hi : step i = Except.error e) (hload : load m = Except.error em) :
    (runSteps step l = Except.ok () ↔ ∀ j ∈ l, step j = Except.ok ())
      ∧ runSteps step l = Except.error e
      ∧ show_ner load txt m = Except.error em := by
  subst hsplit
  refine ⟨runSteps_ok_iff step _,
    runSteps_append_error step l1 i l2 e h1 hi, ?_⟩
  unfold show_ner
  rw [hload]

/-- A step function whose second iteration fails with a disk-full error. -/
def failingStep (i : Nat) : Except String Unit :=
  if i = 1 then Except.error "disk full" else Except.ok ()

/-- A model loader that always fails, as when the model package is not
installed. -/
def failingLoad (_ : String) : Except String (String → List NerEnt) :=
  Except.error "missing model"

/-- Witness for C8: three loop iterations of which the second fails, and a
load of the CRAFT NER model that fails. -/
theorem C8_errors_propagate_witness :
    (runSteps failingStep [0, 1, 2] = Except.ok ()
        ↔ ∀ j ∈ [0, 1, 2], failingStep j = Except.ok ())
      ∧ runSteps failingStep [0, 1, 2] = Except.error "disk full"
      ∧ show_ner failingLoad "text" "en_ner_craft_md"
          = Except.error "missing model" :=
  C8_errors_propagate failingStep [0, 1, 2] [0] [2] 1 "disk full"
    "missing model" failingLoad "text" "en_ner_craft_md" rfl
    (by
      intro j hj
      rw [List.mem_singleton] at hj
      subst hj
      rfl)
    rfl rfl
